import Mathlib

/-!
Verification development for the k2a gateway.

Part 1 models the thinking-block extractor (`src/parser/thinking_state_machine.go`
and the tag detector in the parser package): buffers are lists of bytes
(`List Nat`, each entry a byte value), mirroring Go strings, which are byte
slices.  Part 2 models the credential rotation, rate limiting, fingerprint and
token-cache logic from `src/auth`; Go `float64` and `time.Duration` arithmetic
is modelled by exact rationals.
-/

/-- Byte list of an ASCII string (Go strings are byte slices). -/
def asBytes (s : String) : List Nat := s.data.map Char.toNat

/-- The quote characters used to reject fake thinking tags
(`quoteChars` in the detector). -/
def quoteChars : List Nat := asBytes "`\"\'\\#[]()\x7b\x7d"

/-- `isQuoteChar` from the detector. -/
def isQuoteChar (b : Nat) : Bool := quoteChars.contains b

/-- `thinkingStartTag = "<thinking>"`. -/
def thinkingStartTag : List Nat := asBytes "<thinking>"

/-- `thinkingEndTag = "</thinking>"`. -/
def thinkingEndTag : List Nat := asBytes "</thinking>"

/-- First index at or after which `pat` occurs in `hay`, measured from `pos`
(helper mirroring Go `strings.Index` over the remaining slice). -/
def listIndexOfAux (hay pat : List Nat) (pos : Nat) : Option Nat :=
  match hay with
  | [] => if pat.isEmpty then some pos else none
  | _ :: t => if pat.isPrefixOf hay then some pos else listIndexOfAux t pat (pos + 1)

/-- `strings.Index(buffer[searchStart:], pat) + searchStart`,
as used by the tag finders; `none` models Go's `-1`. -/
def indexOfFrom (s pat : List Nat) (start : Nat) : Option Nat :=
  (listIndexOfAux (s.drop start) pat 0).map (· + start)

/-- `utf8.RuneStart`: a byte that does not have the form `10xxxxxx`. -/
def runeStart (b : Nat) : Bool := (b &&& 192) != 128

/-- The decrement loop of `FindCharBoundary`. -/
def fcbLoop (s : List Nat) : Nat → Nat
  | 0 => 0
  | t + 1 => if runeStart (s.getD (t + 1) 0) then t + 1 else fcbLoop s t

/-- `FindCharBoundary` from the detector: snap `target` back to a UTF-8
codepoint boundary. -/
def findCharBoundary (s : List Nat) (target : Nat) : Nat :=
  if target = 0 then 0
  else if s.length ≤ target then s.length
  else fcbLoop s target

/-- One search loop of `FindRealThinkingStartTag`, with explicit fuel
(each Go iteration advances `searchStart`, so `buffer.length + 1` fuel
is always enough). -/
def findStartLoop (buffer : List Nat) : Nat → Nat → Option Nat
  | 0, _ => none
  | fuel + 1, searchStart =>
    match indexOfFrom buffer thinkingStartTag searchStart with
    | none => none
    | some idx =>
      if 0 < idx ∧ isQuoteChar (buffer.getD (idx - 1) 0) then
        findStartLoop buffer fuel (idx + thinkingStartTag.length)
      else if idx + thinkingStartTag.length < buffer.length ∧
          isQuoteChar (buffer.getD (idx + thinkingStartTag.length) 0) then
        findStartLoop buffer fuel (idx + thinkingStartTag.length)
      else if ((buffer.take idx).count 96) % 2 = 1 then
        findStartLoop buffer fuel (idx + thinkingStartTag.length)
      else
        some idx

/-- `FindRealThinkingStartTag` from the detector. -/
def findRealThinkingStartTag (buffer : List Nat) : Option Nat :=
  findStartLoop buffer (buffer.length + 1) 0

/-- One search loop of `FindRealThinkingEndTag`, with explicit fuel. -/
def findEndLoop (buffer : List Nat) : Nat → Nat → Option Nat
  | 0, _ => none
  | fuel + 1, searchStart =>
    match indexOfFrom buffer thinkingEndTag searchStart with
    | none => none
    | some idx =>
      if 0 < idx ∧ isQuoteChar (buffer.getD (idx - 1) 0) then
        findEndLoop buffer fuel (idx + thinkingEndTag.length)
      else if idx + thinkingEndTag.length < buffer.length ∧
          isQuoteChar (buffer.getD (idx + thinkingEndTag.length) 0) then
        findEndLoop buffer fuel (idx + thinkingEndTag.length)
      else if ((buffer.take idx).count 96) % 2 = 1 then
        findEndLoop buffer fuel (idx + thinkingEndTag.length)
      else
        let remaining := buffer.drop (idx + thinkingEndTag.length)
        if 2 ≤ remaining.length then
          if remaining.take 2 ≠ [10, 10] then
            findEndLoop buffer fuel (idx + thinkingEndTag.length)
          else some idx
        else if remaining.length = 1 then none
        else some idx

/-- `FindRealThinkingEndTag` from the detector: the real close tag must be
followed by `\n\n` or end the buffer; a single trailing byte means wait. -/
def findRealThinkingEndTag (buffer : List Nat) : Option Nat :=
  findEndLoop buffer (buffer.length + 1) 0

/-- `ThinkingState` of the stream state machine. -/
inductive ThinkingState where
  | notInThinking
  | inThinking
  | thinkingExtracted
deriving DecidableEq

/-- `ProcessChunkResult` of the stream state machine. -/
structure ProcessChunkResult where
  thinkingContent : List Nat
  textContent : List Nat
  thinkingStarted : Bool
  thinkingEnded : Bool
deriving DecidableEq

/-- The mutable part of `ThinkingStreamContext` relevant to chunk processing. -/
structure ThinkingStreamContext where
  thinkingEnabled : Bool
  state : ThinkingState
  buffer : List Nat
deriving DecidableEq

/-- The all-empty `ProcessChunkResult`. -/
def emptyResult : ProcessChunkResult := ⟨[], [], false, false⟩

/-- `processNotInThinking`: returns the result together with the new state and
new carry buffer. -/
def processNotInThinking (buffer : List Nat) :
    ProcessChunkResult × ThinkingState × List Nat :=
  match findRealThinkingStartTag buffer with
  | some startIdx =>
    (⟨[], buffer.take startIdx, true, false⟩, .inThinking,
      buffer.drop (startIdx + thinkingStartTag.length))
  | none =>
    if thinkingStartTag.length ≤ buffer.length then
      let safeLen := buffer.length - thinkingStartTag.length + 1
      let safeBoundary := findCharBoundary buffer safeLen
      if 0 < safeBoundary then
        (⟨[], buffer.take safeBoundary, false, false⟩, .notInThinking,
          buffer.drop safeBoundary)
      else (emptyResult, .notInThinking, buffer)
    else (emptyResult, .notInThinking, buffer)

/-- `processInThinking`: returns the result together with the new state and
new carry buffer. -/
def processInThinking (buffer : List Nat) :
    ProcessChunkResult × ThinkingState × List Nat :=
  match findRealThinkingEndTag buffer with
  | some endIdx =>
    let remaining := buffer.drop (endIdx + thinkingEndTag.length)
    let text :=
      if remaining.take 2 = [10, 10] then remaining.drop 2
      else if remaining.take 1 = [10] then remaining.drop 1
      else remaining
    (⟨buffer.take endIdx, text, false, true⟩, .thinkingExtracted, [])
  | none =>
    if thinkingEndTag.length ≤ buffer.length then
      let safeLen := buffer.length - thinkingEndTag.length + 1
      let safeBoundary := findCharBoundary buffer safeLen
      if 0 < safeBoundary then
        (⟨buffer.take safeBoundary, [], false, false⟩, .inThinking,
          buffer.drop safeBoundary)
      else (emptyResult, .inThinking, buffer)
    else (emptyResult, .inThinking, buffer)

/-- `ProcessChunk` of `ThinkingStreamContext`. -/
def processChunk (ctx : ThinkingStreamContext) (chunk : List Nat) :
    ProcessChunkResult × ThinkingStreamContext :=
  if ctx.thinkingEnabled = false then (⟨[], chunk, false, false⟩, ctx)
  else
    let buf := ctx.buffer ++ chunk
    match ctx.state with
    | .notInThinking =>
      let r := processNotInThinking buf
      (r.1, { ctx with state := r.2.1, buffer := r.2.2 })
    | .inThinking =>
      let r := processInThinking buf
      (r.1, { ctx with state := r.2.1, buffer := r.2.2 })
    | .thinkingExtracted =>
      (⟨[], buf, false, false⟩, { ctx with buffer := [] })

/-- `FlushBuffer` of `ThinkingStreamContext`. -/
def flushBuffer (ctx : ThinkingStreamContext) :
    ProcessChunkResult × ThinkingStreamContext :=
  if ctx.buffer = [] then (emptyResult, ctx)
  else
    match ctx.state with
    | .inThinking => (⟨ctx.buffer, [], false, false⟩, { ctx with buffer := [] })
    | _ => (⟨[], ctx.buffer, false, false⟩, { ctx with buffer := [] })

/-- Feed a list of chunks through `processChunk`, concatenating the emitted
thinking and text contents. -/
def runChunks (ctx : ThinkingStreamContext) :
    List (List Nat) → List Nat × List Nat × ThinkingStreamContext
  | [] => ([], [], ctx)
  | c :: rest =>
    let r := processChunk ctx c
    let rec' := runChunks r.2 rest
    (r.1.thinkingContent ++ rec'.1, r.1.textContent ++ rec'.2.1, rec'.2.2)

/-- A fresh context as built by `NewThinkingStreamContext`. -/
def newThinkingStreamContext (enabled : Bool) : ThinkingStreamContext :=
  ⟨enabled, .notInThinking, []⟩

/-- Feed chunks to a fresh context then flush: total (thinking, text). -/
def runStream (enabled : Bool) (chunks : List (List Nat)) : List Nat × List Nat :=
  let r := runChunks (newThinkingStreamContext enabled) chunks
  let f := flushBuffer r.2.2
  (r.1 ++ f.1.thinkingContent, r.2.1 ++ f.1.textContent)

/-- `TokenState` from the rate limiter (`src/auth/rate_limiter.go`).
Instants and durations are seconds, modelled as exact rationals. -/
structure TokenState where
  lastRequest : ℚ
  requestCount : Nat
  cooldownEnd : ℚ
  failCount : Nat
  dailyRequests : Nat
  dailyResetTime : ℚ
  isSuspended : Bool
  suspendedAt : ℚ
  suspendReason : String

/-- `RateLimiterConfig` (durations in seconds, multiplier as a rational). -/
structure RateLimiterConfig where
  minTokenInterval : ℚ
  maxTokenInterval : ℚ
  globalMinInterval : ℚ
  maxConsecutiveUse : Nat
  cooldownDuration : ℚ
  backoffBase : ℚ
  backoffMax : ℚ
  backoffMultiplier : ℚ
  dailyMaxRequests : Nat
  jitterPercent : Nat
  suspendedCooldown : ℚ

/-- The default configuration from `config/tuning.go`: 10s/30s token intervals,
5s global floor, cap 10, 5min cooldown, backoff base 2min, max 60min,
multiplier 2, daily 500, jitter 30%, suspended cooldown 24h. -/
def defaultRateLimiterConfig : RateLimiterConfig :=
  ⟨10, 30, 5, 10, 300, 120, 3600, 2, 500, 30, 86400⟩

/-- `calculateBackoff`: exponential backoff with jitter.  `rand` models the
`rng.Float64()` draw, a value in `[0,1)`; the Go float arithmetic is modelled
by exact rationals. -/
def calculateBackoff (cfg : RateLimiterConfig) (failCount : Nat) (rand : ℚ) : ℚ :=
  if failCount = 0 then cfg.cooldownDuration
  else
    let backoff := cfg.backoffBase * cfg.backoffMultiplier ^ (failCount - 1)
    let withJitter := backoff + rand * (1 / 5) * backoff
    if cfg.backoffMax < withJitter then cfg.backoffMax else withJitter

/-- `MarkTokenCooldown`: increment the consecutive-failure count and set the
cooldown end to `now` plus the computed backoff; reset the consecutive-use
counter. -/
def markTokenCooldown (cfg : RateLimiterConfig) (s : TokenState) (now rand : ℚ) :
    TokenState :=
  { s with
    failCount := s.failCount + 1
    cooldownEnd := now + calculateBackoff cfg (s.failCount + 1) rand
    requestCount := 0 }

/-- `RecordSuccess`: reset the consecutive-failure count. -/
def recordSuccess (s : TokenState) : TokenState :=
  if 0 < s.failCount then { s with failCount := 0 } else s

/-- `MarkTokenSuspended`: flag the key as suspended and set a long cooldown. -/
def markTokenSuspended (cfg : RateLimiterConfig) (s : TokenState) (now : ℚ)
    (reason : String) : TokenState :=
  { s with
    isSuspended := true
    suspendedAt := now
    suspendReason := reason
    cooldownEnd := now + cfg.suspendedCooldown
    requestCount := 0 }

/-- `IsTokenInCooldown` for an existing state: returns the predicate value and
the possibly-updated state (lazy clearing of the failure count and the
suspension flag once the cooldown has passed). -/
def isTokenInCooldown (s : TokenState) (now : ℚ) : Bool × TokenState :=
  if s.isSuspended = true ∧ now < s.cooldownEnd then (true, s)
  else if now < s.cooldownEnd then (true, s)
  else
    let s1 := if 0 < s.failCount then { s with failCount := 0 } else s
    let s2 :=
      if s1.isSuspended then { s1 with isSuspended := false, suspendReason := "" } else s1
    (false, s2)

/-- The rotation state of `TokenManager`: `currentIndex` plus the per-key
consecutive-use counters kept by the rate limiter (`RequestCount`), indexed in
`configOrder` order. -/
structure RotSt where
  currentIndex : Nat
  requestCounts : List Nat

/-- `advanceToNextToken`: circular advance over `configOrder`. -/
def advanceToNextToken (K idx : Nat) : Nat := (idx + 1) % K

/-- One failure-free `getBestToken` round with every key usable and no key in
cooldown or over its daily cap: `selectNextAvailableTokenUnlocked` returns the
key at `currentIndex`; `RecordRequest` increments its consecutive count; when
`ShouldRotate` (count reached `maxConsecutiveUse`) the count is reset and
`advanceToNextToken` runs.  Returns the selected index and the next state. -/
def tmStep (K cap : Nat) (st : RotSt) : Nat × RotSt :=
  let sel := st.currentIndex
  let counts := st.requestCounts.set sel (st.requestCounts.getD sel 0 + 1)
  if cap ≤ counts.getD sel 0 then
    (sel, ⟨advanceToNextToken K sel, counts.set sel 0⟩)
  else
    (sel, ⟨sel, counts⟩)

/-- Rotation state after `n` failure-free requests, starting from index 0 with
all consecutive counters at 0 (the `NewTokenManager` initial state). -/
def tmState (K cap : Nat) : Nat → RotSt
  | 0 => ⟨0, List.replicate K 0⟩
  | n + 1 => (tmStep K cap (tmState K cap n)).2

/-- The key index selected by the `n`-th failure-free request (0-based). -/
def tmSelection (K cap n : Nat) : Nat := (tmStep K cap (tmState K cap n)).1

/-- Selected key indices of the first `R` failure-free requests. -/
def tmSelections (K cap R : Nat) : List Nat :=
  (List.range R).map (tmSelection K cap)

/-- `FreeTrialInfo` fields used by `CalculateAvailableCount`. -/
structure FreeTrialInfo where
  freeTrialStatus : String
  usageLimitWithPrecision : ℚ
  currentUsageWithPrecision : ℚ

/-- A usage breakdown entry (`UsageBreakdownList` element). -/
structure UsageBreakdown where
  resourceType : String
  freeTrialInfo : Option FreeTrialInfo
  usageLimitWithPrecision : ℚ
  currentUsageWithPrecision : ℚ

/-- `CalculateAvailableCount`: available credit of the first CREDIT breakdown,
free-trial credit (when ACTIVE) plus base credit, clamped at zero. -/
def calculateAvailableCount : List UsageBreakdown → ℚ
  | [] => 0
  | b :: rest =>
    if b.resourceType = "CREDIT" then
      let ft :=
        match b.freeTrialInfo with
        | some f =>
          if f.freeTrialStatus = "ACTIVE" then
            f.usageLimitWithPrecision - f.currentUsageWithPrecision
          else 0
        | none => 0
      let total := ft + (b.usageLimitWithPrecision - b.currentUsageWithPrecision)
      if total < 0 then 0 else total
    else calculateAvailableCount rest

/-- The per-use decrement of a cached token's `Available` performed by
`getBestToken` and `GetTokenWithFingerprint` after selection:
`if Available > 0 { Available-- }` on a `float64`. -/
def decrementAvailable (a : ℚ) : ℚ := if 0 < a then a - 1 else a

/-- `CachedToken.IsUsable`: not expired and positive available credit. -/
def isUsable (now expiresAt available : ℚ) : Bool :=
  if expiresAt < now then false else decide (0 < available)

/-- One OS profile of the fingerprint generator (`osProfiles`). -/
structure OsProfile where
  osType : String
  versions : List String
  locales : List String
  timezones : List String
  platform : String
deriving DecidableEq

/-- The three OS profiles from `src/auth/fingerprint.go`. -/
def osProfiles : List OsProfile :=
  [⟨"darwin",
    ["23.0.0", "23.1.0", "23.5.0", "24.0.0", "24.1.0", "24.5.0", "24.6.0", "25.0.0"],
    ["en-US", "en-GB", "zh-CN", "zh-TW", "ja-JP", "ko-KR", "de-DE", "fr-FR"],
    ["America/Los_Angeles", "America/New_York", "Europe/London", "Asia/Shanghai",
      "Asia/Tokyo"],
    "MacIntel"⟩,
   ⟨"windows",
    ["10.0.19041", "10.0.19042", "10.0.19043", "10.0.22000", "10.0.22621", "10.0.22631"],
    ["en-US", "en-GB", "zh-CN", "zh-TW", "ja-JP", "ko-KR", "de-DE"],
    ["America/Los_Angeles", "America/New_York", "America/Chicago", "Europe/London",
      "Asia/Shanghai"],
    "Win32"⟩,
   ⟨"linux",
    ["5.15.0", "5.19.0", "6.1.0", "6.2.0", "6.5.0", "6.6.0", "6.8.0"],
    ["en-US", "en-GB", "zh-CN", "de-DE", "ru-RU"],
    ["UTC", "America/New_York", "Europe/Berlin", "Asia/Shanghai"],
    "Linux x86_64"⟩]

/-- `acceptLanguageTemplates`: the locale-keyed template map. -/
def acceptLanguageTemplates (locale : String) : Option (List String) :=
  if locale = "en-US" then
    some ["en-US,en;q=0.9", "en-US,en;q=0.9,zh-CN;q=0.8", "en-US,en;q=0.8"]
  else if locale = "en-GB" then
    some ["en-GB,en;q=0.9,en-US;q=0.8", "en-GB,en;q=0.9"]
  else if locale = "zh-CN" then
    some ["zh-CN,zh;q=0.9,en;q=0.8", "zh-CN,zh;q=0.9,en-US;q=0.8,en;q=0.7"]
  else if locale = "zh-TW" then
    some ["zh-TW,zh;q=0.9,en;q=0.8", "zh-TW,zh-CN;q=0.9,zh;q=0.8,en;q=0.7"]
  else if locale = "ja-JP" then
    some ["ja-JP,ja;q=0.9,en;q=0.8", "ja,en-US;q=0.9,en;q=0.8"]
  else if locale = "ko-KR" then
    some ["ko-KR,ko;q=0.9,en;q=0.8", "ko,en-US;q=0.9,en;q=0.8"]
  else if locale = "de-DE" then
    some ["de-DE,de;q=0.9,en;q=0.8", "de,en-US;q=0.9,en;q=0.8"]
  else if locale = "fr-FR" then
    some ["fr-FR,fr;q=0.9,en;q=0.8", "fr,en-US;q=0.9,en;q=0.8"]
  else if locale = "ru-RU" then
    some ["ru-RU,ru;q=0.9,en;q=0.8", "ru,en;q=0.9"]
  else none

/-- A uniform pool draw `pool[rng.Intn(len(pool))]`: the abstract draw `i` is
reduced modulo the pool size, so in-range draws are picked verbatim. -/
def pickD {α : Type} (l : List α) (i : Nat) (d : α) : α := l.getD (i % l.length) d

/-- The fingerprint fields whose generation is locale/profile-coherent
(`generateFingerprint`); the remaining fields (SDK/node/product versions,
hash, screen, etc.) are independent draws from fixed pools and are not
involved in the coherence claim. -/
structure Fingerprint where
  osType : String
  osVersion : String
  platform : String
  locale : String
  timezone : String
  acceptLanguage : String
deriving DecidableEq

/-- The accept-language template lookup with the `en-US` fallback used when a
locale has no entry (`acceptLangOptions == nil` in `generateFingerprint`). -/
def resolveAcceptLanguageOptions (locale : String) : List String :=
  match acceptLanguageTemplates locale with
  | some opts => opts
  | none => (acceptLanguageTemplates "en-US").getD []

/-- `generateFingerprint` restricted to the coherent fields.  `pi', vi, li, ti,
ai` model the successive `rng.Intn` draws for profile, OS version, locale,
timezone and accept-language template. -/
def generateFingerprint (pi' vi li ti ai : Nat) : Fingerprint :=
  let pro := pickD osProfiles pi' ⟨"", [], [], [], ""⟩
  let locale := pickD pro.locales li ""
  let timezone := pickD pro.timezones ti ""
  ⟨pro.osType, pickD pro.versions vi "", pro.platform, locale, timezone,
    pickD (resolveAcceptLanguageOptions locale) ai ""⟩

/-- `strings.HasPrefix` on UTF-8 strings. -/
def beginsWith (p s : String) : Bool := p.data.isPrefixOf s.data

/-- The primary language subtag of a locale: the part before the first `-`. -/
def langSubtag (locale : String) : String :=
  String.mk (locale.data.takeWhile (fun c => c ≠ '-'))

example : findRealThinkingStartTag (asBytes "<thinking>content") = some 0 := by decide
example : findRealThinkingStartTag (asBytes "prefix<thinking>content") = some 6 := by decide
example : findRealThinkingStartTag (asBytes "`<thinking>`") = none := by decide
example : findRealThinkingStartTag (asBytes "```\n<thinking>\n```") = none := by decide
example : findRealThinkingStartTag (asBytes "text ``code`` <thinking>content") = some 14 := by
  decide
example : findRealThinkingStartTag (asBytes "`<thinking>` <thinking>real") = some 13 := by
  decide
example : findRealThinkingEndTag (asBytes "content</thinking>\n\nafter") = some 7 := by decide
example : findRealThinkingEndTag (asBytes "content</thinking>") = some 7 := by decide
example : findRealThinkingEndTag (asBytes "content</thinking>text") = none := by decide
example : findRealThinkingEndTag (asBytes "content</thinking>\n") = none := by decide
example : findRealThinkingEndTag (asBytes "`</thinking>` content</thinking>\n\n") = some 21 := by
  decide
example : findCharBoundary (asBytes "hello") 3 = 3 := by decide
example : findCharBoundary [228, 189, 160, 229, 165, 189] 4 = 3 := by decide
example : runStream true [asBytes "<think", asBytes "ing>my ", asBytes "thoughts</thin",
    asBytes "king>\n\nafter"] = (asBytes "my thoughts", asBytes "after") := by decide
example : runStream true [asBytes "<thinking>a</thinking>\n\nb"] =
    (asBytes "a</thinking>\n\nb", []) := by decide

lemma pickD_mem {α : Type} (l : List α) (i : Nat) (d : α) (h : l ≠ []) :
    pickD l i d ∈ l := by
  have hl : 0 < l.length := List.length_pos.mpr h
  have hm : i % l.length < l.length := Nat.mod_lt _ hl
  rw [pickD, List.getD_eq_getElem l d hm]
  exact List.getElem_mem hm

/-- C10: with thinking disabled, `ProcessChunk` is the identity on text: every
chunk comes back verbatim as text with no thinking content, nothing is
buffered and the context is unchanged, so concatenated downstream text equals
the upstream text, literal thinking tags included. -/
theorem thinking_disabled_identity (ctx : ThinkingStreamContext)
    (h : ctx.thinkingEnabled = false) :
    (∀ chunk, processChunk ctx chunk = (⟨[], chunk, false, false⟩, ctx)) ∧
    (∀ chunks, runChunks ctx chunks = ([], chunks.flatten, ctx)) := by
  have hstep : ∀ chunk, processChunk ctx chunk = (⟨[], chunk, false, false⟩, ctx) := by
    intro chunk
    simp [processChunk, h]
  refine ⟨hstep, ?_⟩
  intro chunks
  induction chunks with
  | nil => simp [runChunks]
  | cons c rest ih => simp [runChunks, hstep, ih]

/-- Witness for C10 at a concrete context and chunk list containing literal
thinking tags. -/
theorem thinking_disabled_identity_witness :
    (newThinkingStreamContext false).thinkingEnabled = false ∧
    runChunks (newThinkingStreamContext false)
      [asBytes "<thinking>a", asBytes "b</thinking>\n\nc"] =
      ([], asBytes "<thinking>ab</thinking>\n\nc", newThinkingStreamContext false) := by
  refine ⟨rfl, ?_⟩
  rw [(thinking_disabled_identity (newThinkingStreamContext false) rfl).2]
  decide

/-- C5: after `MarkTokenSuspended` at time `t` with the default 24h suspended
cooldown, `IsTokenInCooldown` returns true at every query time in
`[t, t+24h)` without changing the state, and false at every time `≥ t+24h`;
the first such query clears both the suspended flag and the
consecutive-failure counter. -/
theorem suspension_cooldown_window (cfg : RateLimiterConfig) (s : TokenState)
    (t q : ℚ) (reason : String) (hc : cfg.suspendedCooldown = 86400) :
    (t ≤ q → q < t + 86400 →
      isTokenInCooldown (markTokenSuspended cfg s t reason) q =
        (true, markTokenSuspended cfg s t reason)) ∧
    (t + 86400 ≤ q →
      (isTokenInCooldown (markTokenSuspended cfg s t reason) q).1 = false ∧
      (isTokenInCooldown (markTokenSuspended cfg s t reason) q).2.isSuspended = false ∧
      (isTokenInCooldown (markTokenSuspended cfg s t reason) q).2.failCount = 0) := by
  have hS : (markTokenSuspended cfg s t reason).isSuspended = true := rfl
  have hE : (markTokenSuspended cfg s t reason).cooldownEnd = t + cfg.suspendedCooldown :=
    rfl
  constructor
  · intro _ h2
    unfold isTokenInCooldown
    rw [if_pos ⟨hS, by rw [hE, hc]; linarith⟩]
  · intro hq
    have hnot : ¬ q < (markTokenSuspended cfg s t reason).cooldownEnd := by
      rw [hE, hc]
      linarith
    unfold isTokenInCooldown
    rw [if_neg (fun hcon => hnot hcon.2), if_neg hnot]
    refine ⟨rfl, ?_, ?_⟩
    · by_cases hf : 0 < (markTokenSuspended cfg s t reason).failCount <;> simp [hf, hS]
    · by_cases hf : 0 < (markTokenSuspended cfg s t reason).failCount <;>
        simp [hf, hS]
      omega

/-- Witness for C5: a key suspended at `t = 100` is in cooldown at `t + 1000`
and no longer at `t + 86400`. -/
theorem suspension_cooldown_window_witness :
    (isTokenInCooldown
      (markTokenSuspended defaultRateLimiterConfig ⟨0, 0, 0, 4, 0, 0, false, 0, ""⟩
        100 "TEMPORARILY_SUSPENDED") 1100).1 = true ∧
    (isTokenInCooldown
      (markTokenSuspended defaultRateLimiterConfig ⟨0, 0, 0, 4, 0, 0, false, 0, ""⟩
        100 "TEMPORARILY_SUSPENDED") 86500).1 = false := by
  have h := suspension_cooldown_window defaultRateLimiterConfig
    ⟨0, 0, 0, 4, 0, 0, false, 0, ""⟩ 100 1100 "TEMPORARILY_SUSPENDED" rfl
  have h2 := suspension_cooldown_window defaultRateLimiterConfig
    ⟨0, 0, 0, 4, 0, 0, false, 0, ""⟩ 100 86500 "TEMPORARILY_SUSPENDED" rfl
  refine ⟨?_, (h2.2 (by norm_num)).1⟩
  rw [h.1 (by norm_num) (by norm_num)]

/-- C4: at the n-th consecutive recorded failure, `MarkTokenCooldown` sets the
cooldown end to the failure instant plus a duration within
`[base·m^(n-1), 1.2·base·m^(n-1)]`, clamped to the backoff maximum; a recorded
success resets the consecutive-failure counter to 0. -/
theorem backoff_bounds (cfg : RateLimiterConfig) (s : TokenState) (now rand : ℚ)
    (n : Nat) (hn : 1 ≤ n) (hfc : s.failCount = n - 1)
    (hbase : 0 < cfg.backoffBase) (hmult : 0 < cfg.backoffMultiplier)
    (hr0 : 0 ≤ rand) (hr1 : rand < 1) :
    (markTokenCooldown cfg s now rand).failCount = n ∧
    min (cfg.backoffBase * cfg.backoffMultiplier ^ (n - 1)) cfg.backoffMax ≤
      (markTokenCooldown cfg s now rand).cooldownEnd - now ∧
    (markTokenCooldown cfg s now rand).cooldownEnd - now ≤ cfg.backoffMax ∧
    (markTokenCooldown cfg s now rand).cooldownEnd - now ≤
      6 / 5 * (cfg.backoffBase * cfg.backoffMultiplier ^ (n - 1)) ∧
    ∀ s₂ : TokenState, (recordSuccess s₂).failCount = 0 := by
  have hfc1 : s.failCount + 1 = n := by omega
  have hx : (0:ℚ) < cfg.backoffBase * cfg.backoffMultiplier ^ (n - 1) :=
    mul_pos hbase (pow_pos hmult _)
  have hcool : (markTokenCooldown cfg s now rand).cooldownEnd - now =
      calculateBackoff cfg n rand := by
    rw [markTokenCooldown]
    rw [hfc1]
    ring
  have hsucc : ∀ s₂ : TokenState, (recordSuccess s₂).failCount = 0 := by
    intro s₂
    unfold recordSuccess
    by_cases hf : 0 < s₂.failCount
    · simp [hf]
    · simp [hf]
      omega
  have hback : calculateBackoff cfg n rand =
      (if cfg.backoffMax <
          cfg.backoffBase * cfg.backoffMultiplier ^ (n - 1) +
            rand * (1 / 5) * (cfg.backoffBase * cfg.backoffMultiplier ^ (n - 1)) then
        cfg.backoffMax
      else
        cfg.backoffBase * cfg.backoffMultiplier ^ (n - 1) +
          rand * (1 / 5) * (cfg.backoffBase * cfg.backoffMultiplier ^ (n - 1))) := by
    unfold calculateBackoff
    rw [if_neg (by omega)]
  have hjit0 : (0:ℚ) ≤
      rand * (1 / 5) * (cfg.backoffBase * cfg.backoffMultiplier ^ (n - 1)) := by
    have := mul_nonneg (mul_nonneg hr0 (by norm_num : (0:ℚ) ≤ 1 / 5)) (le_of_lt hx)
    exact this
  have hjit1 : cfg.backoffBase * cfg.backoffMultiplier ^ (n - 1) +
      rand * (1 / 5) * (cfg.backoffBase * cfg.backoffMultiplier ^ (n - 1)) ≤
      6 / 5 * (cfg.backoffBase * cfg.backoffMultiplier ^ (n - 1)) := by
    nlinarith
  refine ⟨by rw [markTokenCooldown]; exact hfc1, ?_, ?_, ?_, hsucc⟩
  all_goals rw [hcool, hback]
  all_goals split_ifs with hclamp
  · exact min_le_right _ _
  · exact le_trans (min_le_left _ _) (by linarith)
  · exact le_refl _
  · linarith
  · linarith
  · linarith

/-- Witness for C4: defaults (base 2min, multiplier 2, max 60min), third
consecutive failure, jitter draw 1/2. -/
theorem backoff_bounds_witness :
    (markTokenCooldown defaultRateLimiterConfig ⟨0, 0, 0, 2, 0, 0, false, 0, ""⟩
      0 (1 / 2)).failCount = 3 ∧
    min ((120:ℚ) * 2 ^ 2) 3600 ≤
      (markTokenCooldown defaultRateLimiterConfig ⟨0, 0, 0, 2, 0, 0, false, 0, ""⟩
        0 (1 / 2)).cooldownEnd - 0 ∧
    (markTokenCooldown defaultRateLimiterConfig ⟨0, 0, 0, 2, 0, 0, false, 0, ""⟩
      0 (1 / 2)).cooldownEnd - 0 ≤ 6 / 5 * ((120:ℚ) * 2 ^ 2) := by
  have h := backoff_bounds defaultRateLimiterConfig ⟨0, 0, 0, 2, 0, 0, false, 0, ""⟩
    0 (1 / 2) 3 (by norm_num) rfl (by norm_num [defaultRateLimiterConfig])
    (by norm_num [defaultRateLimiterConfig]) (by norm_num) (by norm_num)
  exact ⟨h.1, h.2.1, h.2.2.2.1⟩

/-- C8 counterexample: a CREDIT breakdown with fractional credit 1/2 gives
`Available = 1/2 > 0`, and the per-use decrement then yields `-1/2 < 0`,
violating the claimed `Available ≥ 0` preservation. -/
theorem available_decrement_negative :
    calculateAvailableCount [⟨"CREDIT", none, 1 / 2, 0⟩] = 1 / 2 ∧
    decrementAvailable (calculateAvailableCount [⟨"CREDIT", none, 1 / 2, 0⟩]) < 0 := by
  norm_num [calculateAvailableCount, decrementAvailable]

/-- C8 amended: `CalculateAvailableCount` is clamped at zero, and the per-use
decrement of a nonnegative credit never reaches -1 (it can drive a fractional
credit strictly negative); nonpositive credit makes the token unusable. -/
theorem available_amended :
    (∀ l, 0 ≤ calculateAvailableCount l) ∧
    (∀ a : ℚ, 0 ≤ a → -1 < decrementAvailable a) ∧
    (∀ now expiresAt a : ℚ, isUsable now expiresAt a = true → 0 < a) := by
  refine ⟨?_, ?_, ?_⟩
  · intro l
    induction l with
    | nil => simp [calculateAvailableCount]
    | cons b rest ih =>
      rw [calculateAvailableCount]
      by_cases h1 : b.resourceType = "CREDIT"
      · rw [if_pos h1]
        dsimp only
        split_ifs with h2
        · exact le_refl (0:ℚ)
        · linarith
      · rw [if_neg h1]
        exact ih
  · intro a ha
    unfold decrementAvailable
    split_ifs with h <;> linarith
  · intro now expiresAt a h
    unfold isUsable at h
    split_ifs at h
    exact of_decide_eq_true h

/-- Witness for C8 amended at a concrete fractional-credit record. -/
theorem available_amended_witness :
    (0:ℚ) ≤ calculateAvailableCount [⟨"CREDIT", none, 1 / 2, 0⟩] ∧
    (-1:ℚ) < decrementAvailable (1 / 2) ∧ (0:ℚ) < (1 / 2 : ℚ) := by
  refine ⟨available_amended.1 _, available_amended.2.1 (1 / 2) (by norm_num), ?_⟩
  exact available_amended.2.2 0 1 (1 / 2) (by norm_num [isUsable])

lemma osProfiles_coherent :
    ∀ pro ∈ osProfiles, pro.versions ≠ [] ∧ pro.locales ≠ [] ∧ pro.timezones ≠ [] ∧
      ∀ loc ∈ pro.locales, resolveAcceptLanguageOptions loc ≠ [] ∧
        ∀ al ∈ resolveAcceptLanguageOptions loc,
          beginsWith (langSubtag loc) al = true := by decide

/-- C9 counterexample: the darwin profile with locale `ja-JP` can draw the
Accept-Language template `"ja,en-US;q=0.9,en;q=0.8"`, which does not begin
with the chosen locale tag. -/
theorem fingerprint_acceptlanguage_mismatch :
    (generateFingerprint 0 0 4 0 1).locale = "ja-JP" ∧
    (generateFingerprint 0 0 4 0 1).acceptLanguage = "ja,en-US;q=0.9,en;q=0.8" ∧
    beginsWith (generateFingerprint 0 0 4 0 1).locale
      (generateFingerprint 0 0 4 0 1).acceptLanguage = false := by
  decide

/-- C9 amended: every generated fingerprint draws its locale and timezone from
the chosen OS profile's pools, and its Accept-Language begins with the
locale's primary language subtag (though not always with the full locale
tag). -/
theorem fingerprint_coherence (pi' vi li ti ai : Nat) :
    ∃ pro ∈ osProfiles,
      (generateFingerprint pi' vi li ti ai).osType = pro.osType ∧
      (generateFingerprint pi' vi li ti ai).locale ∈ pro.locales ∧
      (generateFingerprint pi' vi li ti ai).timezone ∈ pro.timezones ∧
      beginsWith (langSubtag (generateFingerprint pi' vi li ti ai).locale)
        (generateFingerprint pi' vi li ti ai).acceptLanguage = true := by
  have hmem : pickD osProfiles pi' ⟨"", [], [], [], ""⟩ ∈ osProfiles :=
    pickD_mem _ _ _ (by decide)
  obtain ⟨-, hl, htz, hcoh⟩ := osProfiles_coherent _ hmem
  refine ⟨pickD osProfiles pi' ⟨"", [], [], [], ""⟩, hmem, rfl, ?_, ?_, ?_⟩
  · exact pickD_mem _ _ _ hl
  · exact pickD_mem _ _ _ htz
  · obtain ⟨hne, hall⟩ := hcoh _ (pickD_mem _ li "" hl)
    exact hall _ (pickD_mem _ ai "" hne)

lemma getD_set_self {α : Type} (l : List α) (i : Nat) (v d : α) (h : i < l.length) :
    (l.set i v).getD i d = v := by
  rw [List.getD_eq_getElem _ _ (by simpa using h)]
  simp

lemma tmStep_fst (K cap : Nat) (st : RotSt) : (tmStep K cap st).1 = st.currentIndex := by
  unfold tmStep
  dsimp only
  split <;> rfl

lemma tmState_closed (K cap : Nat) (hK : 0 < K) (hcap : 0 < cap) (n : Nat) :
    tmState K cap n =
      ⟨n / cap % K, (List.replicate K 0).set (n / cap % K) (n % cap)⟩ := by
  induction n with
  | zero =>
    rw [tmState]
    simp
  | succ n ih =>
    have hm : n % cap < cap := Nat.mod_lt _ hcap
    have hidx : n / cap % K < K := Nat.mod_lt _ hK
    have hlt : n / cap % K < ((List.replicate K (0:Nat)).set (n / cap % K) (n % cap)).length := by
      simpa using hidx
    rw [tmState, ih, tmStep]
    dsimp only
    rw [getD_set_self _ _ _ _ (by simpa using hidx), List.set_set,
      getD_set_self _ _ _ _ (by simpa using hidx)]
    by_cases hrot : cap ≤ n % cap + 1
    · have hmc : n % cap + 1 = cap := by omega
      have hrepr : n + 1 = cap + cap * (n / cap) := by
        calc n + 1 = (n % cap + cap * (n / cap)) + 1 := by rw [Nat.mod_add_div]
          _ = (n % cap + 1) + cap * (n / cap) := by rw [Nat.add_right_comm]
          _ = cap + cap * (n / cap) := by rw [hmc]
      have hq : (n + 1) / cap = n / cap + 1 := by
        rw [hrepr, Nat.mul_comm cap (n / cap), Nat.add_mul_div_right _ _ hcap,
          Nat.div_self hcap, Nat.add_comm]
      have hm0 : (n + 1) % cap = 0 := by
        rw [hrepr, Nat.mul_comm cap (n / cap), Nat.add_mul_mod_self_right, Nat.mod_self]
      rw [if_pos hrot]
      dsimp only
      rw [List.set_set, List.set_replicate_self, hq, hm0, List.set_replicate_self,
        advanceToNextToken, Nat.add_mod (n / cap % K) 1 K, Nat.mod_mod,
        ← Nat.add_mod]
    · have hlt2 : n % cap + 1 < cap := by omega
      have hrepr : n + 1 = (n % cap + 1) + cap * (n / cap) := by
        calc n + 1 = (n % cap + cap * (n / cap)) + 1 := by rw [Nat.mod_add_div]
          _ = (n % cap + 1) + cap * (n / cap) := by rw [Nat.add_right_comm]
      have hq : (n + 1) / cap = n / cap := by
        rw [hrepr, Nat.mul_comm cap (n / cap), Nat.add_mul_div_right _ _ hcap,
          Nat.div_eq_of_lt hlt2, Nat.zero_add]
      have hm1 : (n + 1) % cap = n % cap + 1 := by
        rw [hrepr, Nat.mul_comm cap (n / cap), Nat.add_mul_mod_self_right,
          Nat.mod_eq_of_lt hlt2]
      rw [if_neg hrot]
      dsimp only
      rw [List.set_set, hq, hm1]

/-- C2 counterexample: with two usable keys, cap 10 and no failures, the four
first selections are all `k0` (rotation advances only at the consecutive-use
cap or on failure), not the claimed strict alternation `k0,k1,k0,k1`. -/
theorem roundrobin_counterexample :
    tmSelections 2 10 4 = [0, 0, 0, 0] ∧ tmSelections 2 10 4 ≠ [0, 1, 0, 1] := by
  decide

/-- C2 amended: with K usable keys, consecutive-use cap `cap` and no failures,
the keys are used in consecutive blocks of `cap` requests: the n-th
failure-free selection (0-based) is key `(n / cap) % K`.  Fairness at the
granularity of single requests therefore holds only up to a block of `cap`,
not within `⌊R/K⌋`/`⌈R/K⌉` of each other. -/
theorem roundrobin_amended (K cap n : Nat) (hK : 0 < K) (hcap : 0 < cap) :
    tmSelection K cap n = n / cap % K := by
  rw [tmSelection, tmStep_fst, tmState_closed K cap hK hcap n]

/-- Witness for C2 amended: the 16th request (n = 15) with two keys and cap 10
selects key 1. -/
theorem roundrobin_amended_witness : tmSelection 2 10 15 = 1 := by
  have h := roundrobin_amended 2 10 15 (by decide) (by decide)
  simpa using h

lemma listIndexOfAux_sound (pat : List Nat) :
    ∀ (hay : List Nat) (pos i : Nat), listIndexOfAux hay pat pos = some i →
      pos ≤ i ∧ pat.isPrefixOf (hay.drop (i - pos)) = true := by
  intro hay
  induction hay with
  | nil =>
    intro pos i h
    rw [listIndexOfAux] at h
    by_cases hp : pat.isEmpty
    · rw [if_pos hp] at h
      obtain rfl : pos = i := by simpa using h
      refine ⟨le_refl _, ?_⟩
      rcases pat with _ | ⟨a, t⟩
      · simp
      · simp at hp
    · rw [if_neg hp] at h
      exact absurd h (by simp)
  | cons a t ih =>
    intro pos i h
    rw [listIndexOfAux] at h
    by_cases hp : pat.isPrefixOf (a :: t)
    · rw [if_pos hp] at h
      obtain rfl : pos = i := by simpa using h
      simpa using hp
    · rw [if_neg hp] at h
      obtain ⟨h1, h2⟩ := ih (pos + 1) i h
      refine ⟨by omega, ?_⟩
      have : i - pos = (i - (pos + 1)) + 1 := by omega
      rw [this]
      simpa using h2

lemma indexOfFrom_sound (s pat : List Nat) (start i : Nat)
    (h : indexOfFrom s pat start = some i) :
    start ≤ i ∧ pat.isPrefixOf (s.drop i) = true := by
  rw [indexOfFrom] at h
  cases haux : listIndexOfAux (s.drop start) pat 0 with
  | none => rw [haux] at h; exact absurd h (by simp)
  | some j =>
    rw [haux] at h
    obtain rfl : j + start = i := by simpa using h
    obtain ⟨-, h2⟩ := listIndexOfAux_sound pat _ 0 j haux
    refine ⟨by omega, ?_⟩
    have h2' : pat.isPrefixOf ((s.drop start).drop j) = true := by simpa using h2
    rw [List.drop_drop] at h2'
    rw [Nat.add_comm]
    exact h2'

lemma listIndexOfAux_first (X z : List Nat) (p0 : Nat) (rest : List Nat)
    (hX : p0 ∉ X) :
    ∀ pos, listIndexOfAux (X ++ (p0 :: rest) ++ z) (p0 :: rest) pos =
      some (pos + X.length) := by
  induction X with
  | nil =>
    intro pos
    simp only [List.nil_append, List.cons_append]
    rw [listIndexOfAux]
    rw [if_pos]
    · simp
    · refine List.isPrefixOf_iff_prefix.mpr ?_
      have hpre := List.prefix_append (p0 :: rest) z
      simp only [List.cons_append] at hpre
      exact hpre
  | cons x t ih =>
    intro pos
    have hx : p0 ≠ x := fun hcon => hX (by simp [hcon])
    simp only [List.cons_append]
    rw [listIndexOfAux]
    rw [if_neg]
    · have hrec := ih (fun hcon => hX (by simp [hcon])) (pos + 1)
      simp only [List.cons_append] at hrec
      rw [hrec]
      simp
      omega
    · simp [List.isPrefixOf_cons₂, beq_eq_false_iff_ne.mpr hx]

lemma indexOfFrom_first (s X z : List Nat) (p0 : Nat) (rest : List Nat)
    (start : Nat) (hdrop : s.drop start = X ++ (p0 :: rest) ++ z) (hX : p0 ∉ X) :
    indexOfFrom s (p0 :: rest) start = some (start + X.length) := by
  rw [indexOfFrom, hdrop, listIndexOfAux_first X z p0 rest hX 0]
  simp [Nat.add_comm]

lemma endTag_len : thinkingEndTag.length = 11 := by decide

lemma startTag_len : thinkingStartTag.length = 10 := by decide

lemma findEndLoop_step_found (s : List Nat) (fuel ss idx : Nat)
    (hfind : indexOfFrom s thinkingEndTag ss = some idx)
    (hprev : 0 < idx → isQuoteChar (s.getD (idx - 1) 0) = false)
    (hnext : idx + 11 < s.length → isQuoteChar (s.getD (idx + 11) 0) = false)
    (hbt : (s.take idx).count 96 % 2 = 0)
    (hsuffix : s.length = idx + 11 ∨ (s.drop (idx + 11)).take 2 = [10, 10]) :
    findEndLoop s (fuel + 1) ss = some idx := by
  rw [findEndLoop, hfind]
  dsimp only
  rw [endTag_len]
  have hrem : (s.drop (idx + 11)).length = s.length - (idx + 11) := by simp
  split_ifs with h1 h2 h3 h4 h5 h6
  · exact absurd h1.2 (by simpa using hprev h1.1)
  · exact absurd h2.2 (by simpa using hnext h2.1)
  · omega
  · rcases hsuffix with h | h
    · rw [hrem, h] at h4
      omega
    · exact absurd h h5
  · rfl
  · rcases hsuffix with h | h
    · omega
    · have := congrArg List.length h
      simp at this
      omega
  · rfl

lemma findEndLoop_step_skip (s : List Nat) (fuel ss idx : Nat)
    (hfind : indexOfFrom s thinkingEndTag ss = some idx)
    (hskip : (0 < idx ∧ isQuoteChar (s.getD (idx - 1) 0) = true) ∨
      (idx + 11 < s.length ∧ isQuoteChar (s.getD (idx + 11) 0) = true) ∨
      (s.take idx).count 96 % 2 = 1 ∨
      (2 ≤ (s.drop (idx + 11)).length ∧ (s.drop (idx + 11)).take 2 ≠ [10, 10])) :
    findEndLoop s (fuel + 1) ss = findEndLoop s fuel (idx + 11) := by
  rw [findEndLoop, hfind]
  dsimp only
  rw [endTag_len]
  split_ifs with h1 h2 h3 h4 h5 h6
  · rfl
  · rfl
  · rfl
  · rfl
  · rcases hskip with h | h | h | h
    · exact absurd h h1
    · exact absurd h h2
    · omega
    · exact absurd h.2 (by simpa using h5)
  · rcases hskip with h | h | h | h
    · exact absurd h h1
    · exact absurd h h2
    · omega
    · omega
  · rcases hskip with h | h | h | h
    · exact absurd h h1
    · exact absurd h h2
    · omega
    · omega

lemma findEndLoop_step_wait (s : List Nat) (fuel ss idx : Nat)
    (hfind : indexOfFrom s thinkingEndTag ss = some idx)
    (hprev : 0 < idx → isQuoteChar (s.getD (idx - 1) 0) = false)
    (hnext : idx + 11 < s.length → isQuoteChar (s.getD (idx + 11) 0) = false)
    (hbt : (s.take idx).count 96 % 2 = 0)
    (hlen : s.length = idx + 12) :
    findEndLoop s (fuel + 1) ss = none := by
  rw [findEndLoop, hfind]
  dsimp only
  rw [endTag_len]
  have hrem : (s.drop (idx + 11)).length = s.length - (idx + 11) := by simp
  split_ifs with h1 h2 h3 h4 h5 h6
  · exact absurd h1.2 (by simpa using hprev h1.1)
  · exact absurd h2.2 (by simpa using hnext h2.1)
  · omega
  · omega
  · omega
  · rfl
  · omega

lemma findEndLoop_step_none (s : List Nat) (fuel ss : Nat)
    (hfind : indexOfFrom s thinkingEndTag ss = none) :
    findEndLoop s (fuel + 1) ss = none := by
  rw [findEndLoop, hfind]

lemma findStartLoop_step_found (s : List Nat) (fuel ss idx : Nat)
    (hfind : indexOfFrom s thinkingStartTag ss = some idx)
    (hprev : 0 < idx → isQuoteChar (s.getD (idx - 1) 0) = false)
    (hnext : idx + 10 < s.length → isQuoteChar (s.getD (idx + 10) 0) = false)
    (hbt : (s.take idx).count 96 % 2 = 0) :
    findStartLoop s (fuel + 1) ss = some idx := by
  rw [findStartLoop, hfind]
  dsimp only
  rw [startTag_len]
  split_ifs with h1 h2 h3
  · exact absurd h1.2 (by simpa using hprev h1.1)
  · exact absurd h2.2 (by simpa using hnext h2.1)
  · omega
  · rfl

lemma findStartLoop_step_skip (s : List Nat) (fuel ss idx : Nat)
    (hfind : indexOfFrom s thinkingStartTag ss = some idx)
    (hskip : (0 < idx ∧ isQuoteChar (s.getD (idx - 1) 0) = true) ∨
      (idx + 10 < s.length ∧ isQuoteChar (s.getD (idx + 10) 0) = true) ∨
      (s.take idx).count 96 % 2 = 1) :
    findStartLoop s (fuel + 1) ss = findStartLoop s fuel (idx + 10) := by
  rw [findStartLoop, hfind]
  dsimp only
  rw [startTag_len]
  split_ifs with h1 h2 h3
  · rfl
  · rfl
  · rfl
  · rcases hskip with h | h | h
    · exact absurd h h1
    · exact absurd h h2
    · omega

lemma findStartLoop_step_none (s : List Nat) (fuel ss : Nat)
    (hfind : indexOfFrom s thinkingStartTag ss = none) :
    findStartLoop s (fuel + 1) ss = none := by
  rw [findStartLoop, hfind]

lemma getD_append_left {α : Type} (l1 l2 : List α) (k : Nat) (d : α)
    (h : k < l1.length) : (l1 ++ l2).getD k d = l1.getD k d := by
  rw [List.getD_eq_getElem _ _ (by simp; omega), List.getD_eq_getElem _ _ h]
  exact (List.getElem_append_left' l2 h).symm

lemma getD_append_right {α : Type} (l1 l2 : List α) (k : Nat) (d : α)
    (h : k < l2.length) : (l1 ++ l2).getD (l1.length + k) d = l2.getD k d := by
  rw [Nat.add_comm l1.length k]
  rw [List.getD_eq_getElem _ _ (by simp; omega), List.getD_eq_getElem _ _ h]
  exact (List.getElem_append_right' l1 h).symm

lemma findEndLoop_sound (s : List Nat) :
    ∀ (fuel ss i : Nat), findEndLoop s fuel ss = some i →
      thinkingEndTag.isPrefixOf (s.drop i) = true ∧
      (0 < i → isQuoteChar (s.getD (i - 1) 0) = false) ∧
      (i + 11 < s.length → isQuoteChar (s.getD (i + 11) 0) = false) ∧
      (s.take i).count 96 % 2 = 0 ∧
      (i + 11 = s.length ∨ (s.drop (i + 11)).take 2 = [10, 10]) := by
  intro fuel
  induction fuel with
  | zero =>
    intro ss i h
    rw [findEndLoop] at h
    exact absurd h (by simp)
  | succ f ih =>
    intro ss i h
    rw [findEndLoop] at h
    cases hfind : indexOfFrom s thinkingEndTag ss with
    | none =>
      rw [hfind] at h
      exact absurd h (by simp)
    | some idx =>
      rw [hfind] at h
      dsimp only at h
      rw [endTag_len] at h
      have hrem : (s.drop (idx + 11)).length = s.length - (idx + 11) := by simp
      split_ifs at h with h1 h2 h3 h4 h5 h6
      · exact ih _ _ h
      · exact ih _ _ h
      · exact ih _ _ h
      · exact ih _ _ h
      · obtain rfl : idx = i := by simpa using h
        obtain ⟨-, hpre⟩ := indexOfFrom_sound s thinkingEndTag ss idx hfind
        refine ⟨hpre, ?_, ?_, by omega, Or.inr (not_not.mp h5)⟩
        · intro hpos
          cases hq : isQuoteChar (s.getD (idx - 1) 0)
          · rfl
          · exact absurd ⟨hpos, hq⟩ h1
        · intro hlt
          cases hq : isQuoteChar (s.getD (idx + 11) 0)
          · rfl
          · exact absurd ⟨hlt, hq⟩ h2
      · obtain rfl : idx = i := by simpa using h
        obtain ⟨-, hpre⟩ := indexOfFrom_sound s thinkingEndTag ss idx hfind
        have hlen : 11 ≤ (s.drop idx).length := by
          have := (List.isPrefixOf_iff_prefix.mp hpre).length_le
          simpa [endTag_len] using this
        refine ⟨hpre, ?_, ?_, by omega, Or.inl (by simp at hlen hrem h4 h6 ⊢; omega)⟩
        · intro hpos
          cases hq : isQuoteChar (s.getD (idx - 1) 0)
          · rfl
          · exact absurd ⟨hpos, hq⟩ h1
        · intro hlt
          cases hq : isQuoteChar (s.getD (idx + 11) 0)
          · rfl
          · exact absurd ⟨hlt, hq⟩ h2

lemma findStartLoop_sound (s : List Nat) :
    ∀ (fuel ss i : Nat), findStartLoop s fuel ss = some i →
      thinkingStartTag.isPrefixOf (s.drop i) = true ∧
      (0 < i → isQuoteChar (s.getD (i - 1) 0) = false) ∧
      (i + 10 < s.length → isQuoteChar (s.getD (i + 10) 0) = false) ∧
      (s.take i).count 96 % 2 = 0 := by
  intro fuel
  induction fuel with
  | zero =>
    intro ss i h
    rw [findStartLoop] at h
    exact absurd h (by simp)
  | succ f ih =>
    intro ss i h
    rw [findStartLoop] at h
    cases hfind : indexOfFrom s thinkingStartTag ss with
    | none =>
      rw [hfind] at h
      exact absurd h (by simp)
    | some idx =>
      rw [hfind] at h
      dsimp only at h
      rw [startTag_len] at h
      split_ifs at h with h1 h2 h3
      · exact ih _ _ h
      · exact ih _ _ h
      · exact ih _ _ h
      · obtain rfl : idx = i := by simpa using h
        obtain ⟨-, hpre⟩ := indexOfFrom_sound s thinkingStartTag ss idx hfind
        refine ⟨hpre, ?_, ?_, by omega⟩
        · intro hpos
          cases hq : isQuoteChar (s.getD (idx - 1) 0)
          · rfl
          · exact absurd ⟨hpos, hq⟩ h1
        · intro hlt
          cases hq : isQuoteChar (s.getD (idx + 10) 0)
          · rfl
          · exact absurd ⟨hlt, hq⟩ h2

lemma endTag_cons : thinkingEndTag = 60 :: asBytes "/thinking>" := by decide

lemma startTag_cons : thinkingStartTag = 60 :: asBytes "thinking>" := by decide

lemma benign_not_mem_60 (X : List Nat)
    (hX : ∀ b ∈ X, isQuoteChar b = false ∧ b ≠ 60) : 60 ∉ X :=
  fun hm => (hX 60 hm).2 rfl

lemma benign_count96 (X : List Nat)
    (hX : ∀ b ∈ X, isQuoteChar b = false ∧ b ≠ 60) : List.count 96 X = 0 := by
  refine List.count_eq_zero.mpr fun hm => ?_
  have := (hX 96 hm).1
  rw [show isQuoteChar 96 = true from by decide] at this
  exact absurd this (by simp)

lemma benign_getD (X : List Nat)
    (hX : ∀ b ∈ X, isQuoteChar b = false ∧ b ≠ 60) (k : Nat) (h : k < X.length) :
    isQuoteChar (X.getD k 0) = false := by
  rw [List.getD_eq_getElem _ _ h]
  exact (hX _ (List.getElem_mem h)).1

lemma listIndexOfAux_none_of_short (pat : List Nat) (hne : ¬pat.isEmpty = true) :
    ∀ (hay : List Nat) (pos : Nat), hay.length < pat.length →
      listIndexOfAux hay pat pos = none := by
  intro hay
  induction hay with
  | nil =>
    intro pos h
    rw [listIndexOfAux, if_neg hne]
  | cons a t ih =>
    intro pos h
    rw [listIndexOfAux]
    rw [if_neg, ih _ (by simp at h ⊢; omega)]
    intro hp
    have := (List.isPrefixOf_iff_prefix.mp hp).length_le
    simp at this h
    omega

lemma indexOfFrom_none_of_short (s pat : List Nat) (ss : Nat)
    (hne : ¬pat.isEmpty = true) (h : (s.drop ss).length < pat.length) :
    indexOfFrom s pat ss = none := by
  rw [indexOfFrom, listIndexOfAux_none_of_short pat hne _ 0 h]
  rfl

lemma findEnd_family_nn (X z : List Nat)
    (hX : ∀ b ∈ X, isQuoteChar b = false ∧ b ≠ 60) :
    findRealThinkingEndTag (X ++ thinkingEndTag ++ (10 :: 10 :: z)) = some X.length := by
  set s := X ++ thinkingEndTag ++ (10 :: 10 :: z) with hs
  have hsdrop : s.drop 0 = X ++ (60 :: asBytes "/thinking>") ++ (10 :: 10 :: z) := by
    rw [List.drop_zero, hs, endTag_cons]
  have hfind : indexOfFrom s thinkingEndTag 0 = some X.length := by
    rw [endTag_cons]
    have hf := indexOfFrom_first s X (10 :: 10 :: z) 60 (asBytes "/thinking>") 0 hsdrop
      (benign_not_mem_60 X hX)
    simpa using hf
  have hXE : (X ++ thinkingEndTag).length = X.length + 11 := by simp [endTag_len]
  have hdropXE : s.drop (X.length + 11) = 10 :: 10 :: z := by
    rw [hs]
    exact List.drop_left' hXE
  have hprev : 0 < X.length → isQuoteChar (s.getD (X.length - 1) 0) = false := by
    intro hpos
    rw [hs, List.append_assoc, getD_append_left _ _ _ _ (by omega)]
    exact benign_getD X hX _ (by omega)
  have hnext : X.length + 11 < s.length →
      isQuoteChar (s.getD (X.length + 11) 0) = false := by
    intro _
    have h0 : X.length + 11 = (X ++ thinkingEndTag).length + 0 := by omega
    rw [hs, h0, getD_append_right _ _ _ _ (by simp)]
    rw [List.getD_cons_zero]
    decide
  have hbt : (s.take X.length).count 96 % 2 = 0 := by
    rw [hs, List.append_assoc, List.take_left' rfl, benign_count96 X hX]
  rw [findRealThinkingEndTag]
  exact findEndLoop_step_found s s.length 0 X.length hfind hprev hnext hbt
    (Or.inr (by rw [hdropXE]; simp))

lemma findEnd_family_eob (X : List Nat)
    (hX : ∀ b ∈ X, isQuoteChar b = false ∧ b ≠ 60) :
    findRealThinkingEndTag (X ++ thinkingEndTag) = some X.length := by
  set s := X ++ thinkingEndTag with hs
  have hsdrop : s.drop 0 = X ++ (60 :: asBytes "/thinking>") ++ [] := by
    rw [List.drop_zero, hs, endTag_cons, List.append_nil]
  have hfind : indexOfFrom s thinkingEndTag 0 = some X.length := by
    rw [endTag_cons]
    have hf := indexOfFrom_first s X [] 60 (asBytes "/thinking>") 0 hsdrop
      (benign_not_mem_60 X hX)
    simpa using hf
  have hlen : s.length = X.length + 11 := by simp [hs, endTag_len]
  have hprev : 0 < X.length → isQuoteChar (s.getD (X.length - 1) 0) = false := by
    intro hpos
    rw [hs, getD_append_left _ _ _ _ (by omega)]
    exact benign_getD X hX _ (by omega)
  have hnext : X.length + 11 < s.length →
      isQuoteChar (s.getD (X.length + 11) 0) = false := by
    intro hcon
    omega
  have hbt : (s.take X.length).count 96 % 2 = 0 := by
    rw [hs, List.take_left' rfl, benign_count96 X hX]
  rw [findRealThinkingEndTag]
  exact findEndLoop_step_found s s.length 0 X.length hfind hprev hnext hbt
    (Or.inl hlen)

lemma findEnd_family_wait (X : List Nat) (c : Nat)
    (hX : ∀ b ∈ X, isQuoteChar b = false ∧ b ≠ 60) :
    findRealThinkingEndTag (X ++ thinkingEndTag ++ [c]) = none := by
  set s := X ++ thinkingEndTag ++ [c] with hs
  have hsdrop : s.drop 0 = X ++ (60 :: asBytes "/thinking>") ++ [c] := by
    rw [List.drop_zero, hs, endTag_cons]
  have hfind : indexOfFrom s thinkingEndTag 0 = some X.length := by
    rw [endTag_cons]
    have hf := indexOfFrom_first s X [c] 60 (asBytes "/thinking>") 0 hsdrop
      (benign_not_mem_60 X hX)
    simpa using hf
  have hXE : (X ++ thinkingEndTag).length = X.length + 11 := by simp [endTag_len]
  have hlen : s.length = X.length + 12 := by simp [hs, endTag_len]
  have hdropXE : s.drop (X.length + 11) = [c] := by
    rw [hs]
    exact List.drop_left' hXE
  have hprev : 0 < X.length → isQuoteChar (s.getD (X.length - 1) 0) = false := by
    intro hpos
    rw [hs, List.append_assoc, getD_append_left _ _ _ _ (by omega)]
    exact benign_getD X hX _ (by omega)
  have hgetc : s.getD (X.length + 11) 0 = c := by
    have h0 : X.length + 11 = (X ++ thinkingEndTag).length + 0 := by omega
    rw [hs, h0, getD_append_right _ _ _ _ (by simp)]
    rfl
  rw [findRealThinkingEndTag]
  cases hq : isQuoteChar c with
  | false =>
    refine findEndLoop_step_wait s s.length 0 X.length hfind hprev ?_ ?_ hlen
    · intro _
      rw [hgetc]
      exact hq
    · rw [hs, List.append_assoc, List.take_left' rfl, benign_count96 X hX]
  | true =>
    rw [findEndLoop_step_skip s s.length 0 X.length hfind
      (Or.inr (Or.inl ⟨by omega, by rw [hgetc]; exact hq⟩))]
    obtain ⟨f, hf⟩ : ∃ f, s.length = f + 1 := ⟨s.length - 1, by omega⟩
    rw [hf]
    exact findEndLoop_step_none s f (X.length + 11)
      (indexOfFrom_none_of_short s thinkingEndTag (X.length + 11) (by decide)
        (by rw [hdropXE, endTag_len]; simp))

lemma findEnd_family_skip (X : List Nat)
    (hX : ∀ b ∈ X, isQuoteChar b = false ∧ b ≠ 60) :
    findRealThinkingEndTag
      (X ++ thinkingEndTag ++ ([97, 97] ++ thinkingEndTag ++ [10, 10])) =
      some (X.length + 13) := by
  set w : List Nat := [97, 97] ++ thinkingEndTag ++ [10, 10] with hw
  set s := X ++ thinkingEndTag ++ w with hs
  have hsdrop : s.drop 0 = X ++ (60 :: asBytes "/thinking>") ++ w := by
    rw [List.drop_zero, hs, endTag_cons]
  have hfind : indexOfFrom s thinkingEndTag 0 = some X.length := by
    rw [endTag_cons]
    have hf := indexOfFrom_first s X w 60 (asBytes "/thinking>") 0 hsdrop
      (benign_not_mem_60 X hX)
    simpa using hf
  have hXE : (X ++ thinkingEndTag).length = X.length + 11 := by simp [endTag_len]
  have hlen : s.length = X.length + 26 := by simp [hs, hw, endTag_len]
  have hdropXE : s.drop (X.length + 11) = w := by
    rw [hs]
    exact List.drop_left' hXE
  rw [findRealThinkingEndTag]
  rw [findEndLoop_step_skip s s.length 0 X.length hfind
    (Or.inr (Or.inr (Or.inr ⟨by rw [hdropXE, hw]; simp [endTag_len],
      by rw [hdropXE, hw]; decide⟩)))]
  have hsplit : s.length = (X.length + 25) + 1 := by omega
  rw [hsplit]
  have hfind2 : indexOfFrom s thinkingEndTag (X.length + 11) =
      some (X.length + 13) := by
    rw [endTag_cons]
    have hdrop2 : s.drop (X.length + 11) =
        [97, 97] ++ (60 :: asBytes "/thinking>") ++ [10, 10] := by
      rw [hdropXE, hw, endTag_cons]
    have hf := indexOfFrom_first s [97, 97] [10, 10] 60 (asBytes "/thinking>")
      (X.length + 11) hdrop2 (by decide)
    rw [hf]
    simp
  have hget12 : s.getD (X.length + 12) 0 = 97 := by
    have h0 : X.length + 12 = (X ++ thinkingEndTag).length + 1 := by omega
    rw [hs, h0, getD_append_right _ _ _ _ (by rw [hw]; simp [endTag_len])]
    rw [hw]
    decide
  have hget24 : s.getD (X.length + 24) 0 = 10 := by
    have h0 : X.length + 24 = (X ++ thinkingEndTag).length + 13 := by omega
    rw [hs, h0, getD_append_right _ _ _ _ (by rw [hw]; simp [endTag_len])]
    rw [hw]
    decide
  have hs2 : s = (X ++ thinkingEndTag ++ [97, 97]) ++ (thinkingEndTag ++ [10, 10]) := by
    rw [hs, hw]
    simp [List.append_assoc]
  have hs3 : s = (X ++ thinkingEndTag ++ [97, 97] ++ thinkingEndTag) ++ [10, 10] := by
    rw [hs, hw]
    simp [List.append_assoc]
  refine findEndLoop_step_found s (X.length + 25) (X.length + 11) (X.length + 13)
    hfind2 ?_ ?_ ?_ ?_
  · intro _
    have h1 : X.length + 13 - 1 = X.length + 12 := by omega
    rw [h1, hget12]
    decide
  · intro _
    rw [hget24]
    decide
  · have htake : s.take (X.length + 13) = X ++ thinkingEndTag ++ [97, 97] := by
      rw [hs2]
      exact List.take_left' (by simp [endTag_len])
    rw [htake]
    rw [List.count_append, List.count_append, benign_count96 X hX]
    decide
  · refine Or.inr ?_
    have hdrop24 : s.drop (X.length + 13 + 11) = [10, 10] := by
      have h0 : X.length + 13 + 11 = X.length + 24 := by omega
      rw [h0, hs3]
      exact List.drop_left' (by simp [endTag_len])
    rw [hdrop24]
    rfl

/-- C3: `FindRealThinkingEndTag` returns an occurrence of `</thinking>` only
when it is followed by the two bytes `\n\n` or ends the buffer (first
conjunct, over every buffer and result).  Over every benign prefix: a
`\n\n`-followed occurrence and a buffer-final occurrence are found; an
occurrence followed by exactly one byte yields no match (the extractor waits
for more input); and an occurrence followed by another suffix (here `aa`) is a
false positive that is stepped over, the search continuing to a later real
tag. -/
theorem end_tag_recognition :
    (∀ (s : List Nat) (i : Nat), findRealThinkingEndTag s = some i →
      thinkingEndTag.isPrefixOf (s.drop i) = true ∧
      (i + 11 = s.length ∨ (s.drop (i + 11)).take 2 = [10, 10])) ∧
    (∀ X : List Nat, (∀ b ∈ X, isQuoteChar b = false ∧ b ≠ 60) →
      (∀ z, findRealThinkingEndTag (X ++ thinkingEndTag ++ (10 :: 10 :: z)) =
        some X.length) ∧
      findRealThinkingEndTag (X ++ thinkingEndTag) = some X.length ∧
      (∀ c, findRealThinkingEndTag (X ++ thinkingEndTag ++ [c]) = none) ∧
      findRealThinkingEndTag
        (X ++ thinkingEndTag ++ ([97, 97] ++ thinkingEndTag ++ [10, 10])) =
        some (X.length + 13)) := by
  constructor
  · intro s i h
    rw [findRealThinkingEndTag] at h
    obtain ⟨hpre, -, -, -, hsuf⟩ := findEndLoop_sound s _ _ _ h
    exact ⟨hpre, hsuf⟩
  · intro X hX
    exact ⟨fun z => findEnd_family_nn X z hX, findEnd_family_eob X hX,
      fun c => findEnd_family_wait X c hX, findEnd_family_skip X hX⟩

/-- Witness for C3 on concrete buffers. -/
theorem end_tag_recognition_witness :
    findRealThinkingEndTag (asBytes "abc</thinking>\n\nrest") = some 3 ∧
    findRealThinkingEndTag (asBytes "abc</thinking>\n") = none ∧
    thinkingEndTag.isPrefixOf ((asBytes "abc</thinking>\n\nrest").drop 3) = true := by
  have hX : ∀ b ∈ asBytes "abc", isQuoteChar b = false ∧ b ≠ 60 := by decide
  obtain ⟨hnn, -, hwait, -⟩ := end_tag_recognition.2 (asBytes "abc") hX
  have e1 : asBytes "abc" ++ thinkingEndTag ++ (10 :: 10 :: asBytes "rest") =
      asBytes "abc</thinking>\n\nrest" := by decide
  have e2 : asBytes "abc" ++ thinkingEndTag ++ [10] = asBytes "abc</thinking>\n" := by
    decide
  have hfound : findRealThinkingEndTag (asBytes "abc</thinking>\n\nrest") = some 3 := by
    have hz := hnn (asBytes "rest")
    rw [e1] at hz
    rw [hz]
    decide
  refine ⟨hfound, ?_, ?_⟩
  · have hw := hwait 10
    rw [e2] at hw
    exact hw
  · exact (end_tag_recognition.1 _ 3 hfound).1

lemma fcbLoop_le (s : List Nat) : ∀ t, fcbLoop s t ≤ t := by
  intro t
  induction t with
  | zero => simp [fcbLoop]
  | succ t ih =>
    rw [fcbLoop]
    split_ifs
    · exact le_refl _
    · exact le_trans ih (by omega)

lemma fcbLoop_boundary (s : List Nat) :
    ∀ t, fcbLoop s t = 0 ∨ runeStart (s.getD (fcbLoop s t) 0) = true := by
  intro t
  induction t with
  | zero => exact Or.inl rfl
  | succ t ih =>
    rw [fcbLoop]
    split_ifs with h
    · exact Or.inr h
    · exact ih

lemma fcbLoop_max (s : List Nat) :
    ∀ t q, fcbLoop s t < q → q ≤ t → runeStart (s.getD q 0) = false := by
  intro t
  induction t with
  | zero =>
    intro q h1 h2
    omega
  | succ t ih =>
    intro q h1 h2
    rw [fcbLoop] at h1
    split_ifs at h1 with h
    · omega
    · by_cases hq : q = t + 1
      · subst hq
        cases hr : runeStart (s.getD (t + 1) 0)
        · rfl
        · exact absurd hr h
      · exact ih q h1 (by omega)

lemma findCharBoundary_spec (s : List Nat) (target : Nat)
    (htl : target < s.length ∨ target = 0) :
    findCharBoundary s target ≤ target ∧
    (findCharBoundary s target = 0 ∨
      runeStart (s.getD (findCharBoundary s target) 0) = true) ∧
    (∀ q, findCharBoundary s target < q → q ≤ target →
      runeStart (s.getD q 0) = false) := by
  by_cases h0 : target = 0
  · subst h0
    rw [findCharBoundary, if_pos rfl]
    exact ⟨le_refl _, Or.inl rfl, fun q h1 h2 => by omega⟩
  · have hlt : target < s.length := by tauto
    rw [findCharBoundary, if_neg h0, if_neg (by omega)]
    exact ⟨fcbLoop_le s target, fcbLoop_boundary s target, fcbLoop_max s target⟩

lemma processChunk_no_start (en : Bool) (B chunk : List Nat)
    (he : en = true)
    (hn : findRealThinkingStartTag (B ++ chunk) = none) :
    processChunk ⟨en, .notInThinking, B⟩ chunk =
      (⟨[], (B ++ chunk).take
          (findCharBoundary (B ++ chunk) ((B ++ chunk).length - 9)), false, false⟩,
       ⟨en, .notInThinking,
        (B ++ chunk).drop
          (findCharBoundary (B ++ chunk) ((B ++ chunk).length - 9))⟩) := by
  subst he
  rw [processChunk]
  rw [if_neg (by simp)]
  dsimp only
  rw [processNotInThinking, hn]
  dsimp only
  rw [startTag_len]
  by_cases hlen : 10 ≤ (B ++ chunk).length
  · rw [if_pos hlen]
    have harg : (B ++ chunk).length - 10 + 1 = (B ++ chunk).length - 9 := by omega
    rw [harg]
    by_cases hb : 0 < findCharBoundary (B ++ chunk) ((B ++ chunk).length - 9)
    · rw [if_pos hb]
    · rw [if_neg hb]
      have hb0 : findCharBoundary (B ++ chunk) ((B ++ chunk).length - 9) = 0 := by
        omega
      rw [hb0]
      simp [emptyResult]
  · rw [if_neg hlen]
    have hb0 : findCharBoundary (B ++ chunk) ((B ++ chunk).length - 9) = 0 := by
      have h9 : (B ++ chunk).length - 9 = 0 := by omega
      rw [h9, findCharBoundary, if_pos rfl]
    rw [hb0]
    simp [emptyResult]

/-- C6: an occurrence of the open tag preceded by a quote-set byte, followed
by a quote-set byte, or preceded by an odd number of backticks is never the
position returned by `FindRealThinkingStartTag` (conjunct one, stating the
returned position passes all three checks); likewise the close-tag finder
never returns an occurrence preceded by a quote-set byte or an odd number of
backticks (conjunct two); and when every occurrence in the buffer is rejected
(finder returns no match) the extractor stays in `NotInThinking`, produces no
thinking content, and the quoted tags flow through entirely as text (emitted
text plus retained carry buffer equal the input). -/
theorem false_tag_rejection :
    (∀ (s : List Nat) (i : Nat), findRealThinkingStartTag s = some i →
      (0 < i → isQuoteChar (s.getD (i - 1) 0) = false) ∧
      (i + 10 < s.length → isQuoteChar (s.getD (i + 10) 0) = false) ∧
      (s.take i).count 96 % 2 = 0) ∧
    (∀ (s : List Nat) (i : Nat), findRealThinkingEndTag s = some i →
      (0 < i → isQuoteChar (s.getD (i - 1) 0) = false) ∧
      (s.take i).count 96 % 2 = 0) ∧
    (∀ (ctx : ThinkingStreamContext) (chunk : List Nat),
      ctx.thinkingEnabled = true → ctx.state = .notInThinking →
      findRealThinkingStartTag (ctx.buffer ++ chunk) = none →
      (processChunk ctx chunk).2.state = .notInThinking ∧
      (processChunk ctx chunk).1.thinkingContent = [] ∧
      (processChunk ctx chunk).1.textContent ++ (processChunk ctx chunk).2.buffer =
        ctx.buffer ++ chunk) := by
  refine ⟨?_, ?_, ?_⟩
  · intro s i h
    rw [findRealThinkingStartTag] at h
    obtain ⟨-, hp, hnx, hbt⟩ := findStartLoop_sound s _ _ _ h
    exact ⟨hp, hnx, hbt⟩
  · intro s i h
    rw [findRealThinkingEndTag] at h
    obtain ⟨-, hp, -, hbt, -⟩ := findEndLoop_sound s _ _ _ h
    exact ⟨hp, hbt⟩
  · intro ctx chunk he hst hn
    obtain ⟨en, st, B⟩ := ctx
    have he' : en = true := he
    have hst' : st = ThinkingState.notInThinking := hst
    subst he'
    subst hst'
    rw [processChunk_no_start true B chunk rfl hn]
    refine ⟨rfl, rfl, ?_⟩
    exact List.take_append_drop _ _

/-- Witness for C6: a clean tag is found with all checks passing, and a
backtick-quoted open tag is rejected so the whole input flows out as text. -/
theorem false_tag_rejection_witness :
    (((asBytes "x<thinking>y").take 1).count 96 % 2 = 0 ∧
      isQuoteChar ((asBytes "x<thinking>y").getD 0 0) = false) ∧
    (((asBytes "x</thinking>").take 1).count 96 % 2 = 0) ∧
    ((processChunk ⟨true, .notInThinking, []⟩ (asBytes "`<thinking>`")).2.state =
        .notInThinking ∧
      (processChunk ⟨true, .notInThinking, []⟩
          (asBytes "`<thinking>`")).1.thinkingContent = [] ∧
      (processChunk ⟨true, .notInThinking, []⟩ (asBytes "`<thinking>`")).1.textContent ++
        (processChunk ⟨true, .notInThinking, []⟩ (asBytes "`<thinking>`")).2.buffer =
        [] ++ asBytes "`<thinking>`") := by
  have h1 := (false_tag_rejection.1 (asBytes "x<thinking>y") 1 (by decide))
  have h2 := (false_tag_rejection.2.1 (asBytes "x</thinking>") 1 (by decide))
  have h3 := false_tag_rejection.2.2 ⟨true, .notInThinking, []⟩
    (asBytes "`<thinking>`") rfl rfl (by decide)
  exact ⟨⟨h1.2.2, by rw [show (0:Nat) = 1 - 1 from rfl]; exact h1.1 (by decide)⟩,
    h2.2, h3⟩

/-- C7: in `NotInThinking`, when `ProcessChunk` finds no real open tag in the
combined buffer it emits as text exactly the prefix up to `b` and retains the
rest in the carry buffer, where `b` is the largest UTF-8 codepoint boundary
not exceeding `len(buffer) - len("<thinking>") + 1`; in particular emitted
text never splits a multi-byte codepoint. -/
theorem safe_prefix_emission (ctx : ThinkingStreamContext) (chunk : List Nat)
    (he : ctx.thinkingEnabled = true) (hst : ctx.state = .notInThinking)
    (hn : findRealThinkingStartTag (ctx.buffer ++ chunk) = none) :
    ∃ b, b = findCharBoundary (ctx.buffer ++ chunk) ((ctx.buffer ++ chunk).length - 9) ∧
      (processChunk ctx chunk).1.textContent = (ctx.buffer ++ chunk).take b ∧
      (processChunk ctx chunk).1.thinkingContent = [] ∧
      (processChunk ctx chunk).2.buffer = (ctx.buffer ++ chunk).drop b ∧
      (processChunk ctx chunk).2.state = .notInThinking ∧
      b ≤ (ctx.buffer ++ chunk).length - 9 ∧
      (b = 0 ∨ runeStart ((ctx.buffer ++ chunk).getD b 0) = true) ∧
      (∀ q, b < q → q ≤ (ctx.buffer ++ chunk).length - 9 →
        runeStart ((ctx.buffer ++ chunk).getD q 0) = false) := by
  obtain ⟨en, st, B⟩ := ctx
  have he' : en = true := he
  have hst' : st = ThinkingState.notInThinking := hst
  subst he'
  subst hst'
  obtain ⟨hle, hbound, hmax⟩ := findCharBoundary_spec (B ++ chunk)
    ((B ++ chunk).length - 9) (by omega)
  refine ⟨_, rfl, ?_, ?_, ?_, ?_, hle, hbound, hmax⟩ <;>
    rw [processChunk_no_start true B chunk rfl hn]

/-- Witness for C7: a chunk whose safe length lands inside a three-byte UTF-8
character; the boundary snaps back and the codepoint is retained whole. -/
theorem safe_prefix_emission_witness :
    (processChunk ⟨true, .notInThinking, []⟩
        (asBytes "abc" ++ [228, 189, 160] ++ asBytes "defghij")).1.textContent =
      asBytes "abc" ∧
    (processChunk ⟨true, .notInThinking, []⟩
        (asBytes "abc" ++ [228, 189, 160] ++ asBytes "defghij")).2.buffer =
      [228, 189, 160] ++ asBytes "defghij" := by
  obtain ⟨b, hb, h1, -, h3, -, -, -, -⟩ := safe_prefix_emission
    ⟨true, .notInThinking, []⟩ (asBytes "abc" ++ [228, 189, 160] ++ asBytes "defghij")
    rfl rfl (by decide)
  subst hb
  constructor
  · rw [h1]
    decide
  · rw [h3]
    decide

lemma processChunk_start_only :
    processChunk (newThinkingStreamContext true) thinkingStartTag =
      (⟨[], [], true, false⟩, ⟨true, .inThinking, []⟩) := by decide

lemma processChunk_extracted (B chunk : List Nat) :
    processChunk ⟨true, .thinkingExtracted, B⟩ chunk =
      (⟨[], B ++ chunk, false, false⟩, ⟨true, .thinkingExtracted, []⟩) := by
  rw [processChunk]
  rw [if_neg (by simp)]

lemma processChunk_close (X : List Nat)
    (hX : ∀ b ∈ X, isQuoteChar b = false ∧ b ≠ 60) :
    processChunk ⟨true, .inThinking, []⟩ (X ++ thinkingEndTag ++ [10, 10]) =
      (⟨X, [], false, true⟩, ⟨true, .thinkingExtracted, []⟩) := by
  rw [processChunk]
  rw [if_neg (by simp)]
  dsimp only
  rw [processInThinking]
  simp only [List.nil_append]
  rw [findEnd_family_nn X [] hX]
  dsimp only
  rw [endTag_len]
  have hdrop : (X ++ thinkingEndTag ++ [10, 10]).drop (X.length + 11) = [10, 10] :=
    List.drop_left' (by simp [endTag_len])
  have htake : (X ++ thinkingEndTag ++ [10, 10]).take X.length = X := by
    rw [List.append_assoc]
    exact List.take_left' rfl
  rw [hdrop, htake]
  simp

/-- C1 counterexample: the stream `<thinking>a</thinking>\n\nb` delivered as a
single chunk: `ProcessChunk` only performs the open-tag transition and
`FlushBuffer` then dumps everything left as thinking content, so the result
is not (thinking `a`, text `b`). -/
theorem thinking_stream_counterexample :
    runStream true [asBytes "<thinking>a</thinking>\n\nb"] =
      (asBytes "a</thinking>\n\nb", []) ∧
    runStream true [asBytes "<thinking>a</thinking>\n\nb"] ≠
      (asBytes "a", asBytes "b") := by decide

/-- C1 amended: the `<thinking>X</thinking>\n\nY` round-trip (thinking exactly
X, text exactly Y) holds for chunkings that deliver the open tag, the body
with close tag and `\n\n`, and the trailing text in separate chunks, for every
X free of quote-set bytes and `<` and arbitrary Y; it does not hold for
arbitrary chunk boundaries. -/
theorem thinking_stream_amended (X Y : List Nat)
    (hX : ∀ b ∈ X, isQuoteChar b = false ∧ b ≠ 60) :
    runStream true [thinkingStartTag, X ++ thinkingEndTag ++ [10, 10], Y] = (X, Y) := by
  rw [runStream, runChunks, processChunk_start_only]
  dsimp only
  rw [runChunks, processChunk_close X hX]
  dsimp only
  rw [runChunks, processChunk_extracted [] Y]
  dsimp only
  rw [runChunks]
  dsimp only
  rw [flushBuffer]
  simp [emptyResult]

/-- Witness for C1 amended at the spec's concrete thinking stream. -/
theorem thinking_stream_amended_witness :
    runStream true [thinkingStartTag, asBytes "abc" ++ thinkingEndTag ++ [10, 10],
      asBytes "hello"] = (asBytes "abc", asBytes "hello") :=
  thinking_stream_amended (asBytes "abc") (asBytes "hello") (by decide)
